import Mathlib

/-!
Verification of the flashcard-generator backend services.

This file gives a shallow embedding, in Lean 4, of the parts of the
repository that the specification's testable properties talk about:

* `create_page_batches` (src/backend/services/session_service.py) — the
  page batcher with overlap,
* the per-batch generation loop and terminal-status derivation of
  `_process_with_native_pdf` / `_process_with_text_extraction`,
* `create_session` and the upload/start-generation status flow
  (src/backend/api/v1/sessions.py),
* `continue_generation`'s chunk-index assignment for new cards,
* `edit_card`, `auto_correct_card`, `approve_card`, `reject_card`
  (src/backend/services/card_service.py),
* `approve_suggestion` (src/backend/services/prompt_evolution_service.py),
* `recover_stuck_sessions` (src/backend/main.py),
* `update_prompt_metrics` (src/backend/services/prompt_service.py).

Database tables are modelled as lists of records; SQLAlchemy `UPDATE`
loops become `List.map` over those lists; Python `datetime.utcnow()` is
passed in as an abstract natural-number clock value; LLM network calls
are modelled by passing in the (successful) structured response, and
Python exceptions become `Except` results.  Python truthiness on
`Optional[str]` fields (`if not card.original_front:`) is modelled by
`falsy`, which is true for both `None` and the empty string, exactly as
in CPython.
-/

namespace Flashcards

/-- Status of a card generation session (models.py `SessionStatus`). -/
inductive SessionStatus where
  | pending
  | processing
  | ready
  | reviewing
  | finalized
  | failed
deriving DecidableEq, Repr

/-- Status of a flashcard in the review workflow (models.py `CardStatus`). -/
inductive CardStatus where
  | pending
  | approved
  | rejected
  | edited
deriving DecidableEq, Repr

/-- A card generation session row (models.py `Session`).  The JSON
metadata bag is not needed by any claim and is omitted. -/
structure Session where
  id : ℕ
  filename : String
  file_path : String
  source_type : String
  status : SessionStatus
  total_chunks : ℕ
  processed_chunks : ℕ
  llm_provider : String
  created_at : ℕ
  completed_at : Option ℕ
  prompt_version_id : Option ℕ
deriving DecidableEq, Repr

/-- A flashcard row (models.py `Card`). -/
structure Card where
  id : ℕ
  session_id : ℕ
  front : String
  back : String
  tags : List String
  status : CardStatus
  original_front : Option String
  original_back : Option String
  chunk_index : ℕ
  created_at : ℕ
  reviewed_at : Option ℕ
deriving DecidableEq, Repr

/-- A rejection audit row (models.py `CardRejection`). -/
structure CardRejection where
  id : ℕ
  card_id : ℕ
  reason : String
  rejection_type : String
  auto_corrected : Bool
  created_at : ℕ
deriving DecidableEq, Repr

/-- A prompt version row (models.py `PromptVersion`).  `approval_rate`
is a float in the source; it is modelled as a rational, so the computed
division is exact. -/
structure PromptVersion where
  id : ℕ
  prompt_type : String
  system_prompt : String
  user_prompt_template : String
  version : ℕ
  is_active : Bool
  parent_version_id : Option ℕ
  created_at : ℕ
  total_cards_generated : ℕ
  approved_cards : ℕ
  rejected_cards : ℕ
  approval_rate : ℚ
deriving DecidableEq, Repr

/-- A prompt suggestion row (models.py `PromptSuggestion`).  The JSON
`rejection_patterns` bag is not needed by any claim and is omitted. -/
structure PromptSuggestion where
  id : ℕ
  prompt_version_id : ℕ
  session_id : ℕ
  suggested_system_prompt : String
  suggested_user_prompt_template : String
  reasoning : String
  status : String
  reviewed_at : Option ℕ
  created_at : ℕ
deriving DecidableEq, Repr

/-- One element of the model's structured `cards` array
(`{"front": ..., "back": ..., "images": [...]}`). -/
structure CardData where
  front : String
  back : String
  images : List String
deriving DecidableEq, Repr

/-! ## The batcher (session_service.py, `create_page_batches`) -/

/-- First-occurrence deduplication, the behaviour of Python's
`list(dict.fromkeys(...))`. -/
def pydedup : List ℕ → List ℕ
  | [] => []
  | x :: xs => x :: pydedup (xs.filter (fun y => y ≠ x))
termination_by l => l.length
decreasing_by
  simp only [List.length_cons]
  exact Nat.lt_succ_of_le (List.length_filter_le _ _)

/-- The `for i in range(0, len(pages), stride)` loop body of
`create_page_batches` (session_service.py lines 140-152), including the
merge-tiny-final-batch branch and the early `break` once
`i + batch_size >= len(pages)`. -/
def batchLoop (pages : List ℕ) (batch_size overlap stride i : ℕ)
    (batches : List (List ℕ)) : List (List ℕ) :=
  if h : stride = 0 ∨ pages.length ≤ i then batches
  else
    let batch := (pages.drop i).take batch_size
    let batches' :=
      if batch.isEmpty then batches
      else if batch.length ≤ overlap ∧ batches ≠ [] then
        batches.dropLast ++ [pydedup (batches.getLastD [] ++ batch)]
      else batches ++ [batch]
    if pages.length ≤ i + batch_size then batches'
    else batchLoop pages batch_size overlap stride (i + stride) batches'
termination_by pages.length - i
decreasing_by
  obtain ⟨h1, h2⟩ := not_or.mp h
  omega

/-- `create_page_batches(pages, batch_size, overlap)` from
session_service.py lines 118-154.  The Python `range` raises
`ValueError` on a zero step (`batch_size == overlap`, modelled as
`none`) and is empty on a negative step (`batch_size < overlap`,
modelled as `some []`). -/
def create_page_batches (pages : List ℕ) (batch_size : ℕ := 10)
    (overlap : ℕ := 1) : Option (List (List ℕ)) :=
  if pages.length ≤ batch_size then some [pages]
  else if batch_size = overlap then none
  else if batch_size < overlap then some []
  else some (batchLoop pages batch_size overlap (batch_size - overlap) 0 [])

/-- The list of slices `pages[i:i+batch_size]`, `pages[i+stride:...]`,
…, ending with the first slice that reaches the end of `pages`.  Under
the batcher's contract hypotheses (`0 < stride ≤ batch_size`) the loop
`batchLoop` produces exactly these slices: the merge branch and the
empty-batch guard are unreachable (proved below), so this is the
closed-form description of `create_page_batches` on inputs longer than
`batch_size`. -/
def chop (pages : List ℕ) (batch_size stride i : ℕ) : List (List ℕ) :=
  if stride = 0 ∨ pages.length ≤ i + batch_size then
    [(pages.drop i).take batch_size]
  else
    ((pages.drop i).take batch_size) :: chop pages batch_size stride (i + stride)
termination_by pages.length - i
decreasing_by
  obtain ⟨h1, h2⟩ := not_or.mp (by assumption)
  omega

/-! ## Session creation and the upload / start-generation flow -/

/-- `create_session` (session_service.py lines 47-69).  The active
generation prompt lookup is passed in as `gen_prompt`; the
database-assigned primary key and `utcnow` are the `id` and `now`
arguments.  Note the source sets `status=SessionStatus.PROCESSING.value`
at creation. -/
def create_session (filename file_path : String)
    (llm_provider : String := "openai") (source_type : String := "pdf")
    (gen_prompt : Option PromptVersion := none) (id : ℕ := 0) (now : ℕ := 0) :
    Session :=
  { id := id
    filename := filename
    file_path := file_path
    source_type := source_type
    status := SessionStatus.processing
    total_chunks := 0
    processed_chunks := 0
    llm_provider := llm_provider
    created_at := now
    completed_at := none
    prompt_version_id := gen_prompt.map (fun p => p.id) }

/-- The session part of `upload_pdf_preview` (sessions.py lines
108-118): a session is created via `create_session` and its status is
then overwritten with `"pending"` before any generation starts. -/
def upload_pdf_preview_session (filename file_path llm_provider : String)
    (gen_prompt : Option PromptVersion) (id now : ℕ) : Session :=
  let session := create_session filename file_path llm_provider "pdf"
    gen_prompt id now
  { session with status := SessionStatus.pending }

/-- The status handling of `start_generation` (sessions.py lines
254-265): only a `pending` or `failed` session may start, and it is
moved to `processing`. -/
def start_generation_status (session : Session) : Except String Session :=
  if session.status = SessionStatus.pending ∨
      session.status = SessionStatus.failed then
    Except.ok { session with status := SessionStatus.processing }
  else
    Except.error "Cannot start generation for session in this state"

/-! ## The per-batch generation loop and terminal status -/

/-- The mutable state that `_process_with_native_pdf` /
`_process_with_text_extraction` accumulate across batches: the cards
persisted so far for the session, the per-batch error messages, and the
session's `processed_chunks` counter. -/
structure GenState where
  cards : List Card
  errors : List String
  processed_chunks : ℕ
deriving DecidableEq, Repr

/-- One iteration of the batch loop (session_service.py lines 208-320):
a failed batch appends its error message and continues; a successful
batch persists every returned card with status `pending` and
`chunk_index` equal to the batch ordinal, then advances
`processed_chunks`. -/
def process_batch (session_id : ℕ) (deck_tag : String) (now : ℕ)
    (st : GenState) (batch_idx : ℕ)
    (result : Except String (List CardData)) : GenState :=
  match result with
  | Except.error e => { st with errors := st.errors ++ [e] }
  | Except.ok cards_data =>
    { st with
      cards := st.cards ++ cards_data.map (fun cd =>
        { id := 0
          session_id := session_id
          front := cd.front
          back := cd.back
          tags := [deck_tag]
          status := CardStatus.pending
          original_front := none
          original_back := none
          chunk_index := batch_idx
          created_at := now
          reviewed_at := none })
      processed_chunks := batch_idx + 1 }

/-- `for batch_idx, page_batch in enumerate(batches): try ... except`
(session_service.py lines 208-320), with each batch's outcome — the
structured model response or the raised exception — supplied as an
`Except`. -/
def run_batches_from (session_id : ℕ) (deck_tag : String) (now : ℕ)
    (batch_idx : ℕ) (st : GenState) :
    List (Except String (List CardData)) → GenState
  | [] => st
  | r :: rs =>
    run_batches_from session_id deck_tag now (batch_idx + 1)
      (process_batch session_id deck_tag now st batch_idx r) rs

/-- A whole generation run over a fresh session: all batches processed
in order starting from an empty card table for the session. -/
def run_batches (session_id : ℕ) (deck_tag : String) (now : ℕ)
    (results : List (Except String (List CardData))) : GenState :=
  run_batches_from session_id deck_tag now 0 ⟨[], [], 0⟩ results

/-- The terminal status decision after all batches (session_service.py
lines 322-333 and 403-413): `FAILED` when the session's card count is
zero and at least one error occurred, `READY` otherwise. -/
def finish_session_status (st : GenState) : SessionStatus :=
  if st.cards.length = 0 ∧ st.errors ≠ [] then SessionStatus.failed
  else SessionStatus.ready

/-! ## Continue-generation chunk indices -/

/-- The card-persisting loop of `continue_generation`
(session_service.py lines 549-584).  `max_chunk` is computed by the
source as `db.query(Card).filter(Card.session_id == session_id).count()`
— the session's card COUNT — and each new card of batch `batch_idx`
receives `chunk_index = max_chunk + batch_idx`. -/
def continue_batches (session_id : ℕ) (deck_tag : String) (now : ℕ)
    (max_chunk batch_idx : ℕ) :
    List (Except String (List CardData)) → List Card
  | [] => []
  | r :: rs =>
    (match r with
     | Except.error _ => []
     | Except.ok cards_data => cards_data.map (fun cd =>
        { id := 0
          session_id := session_id
          front := cd.front
          back := cd.back
          tags := [deck_tag]
          status := CardStatus.pending
          original_front := none
          original_back := none
          chunk_index := max_chunk + batch_idx
          created_at := now
          reviewed_at := none }))
      ++ continue_batches session_id deck_tag now max_chunk (batch_idx + 1) rs

/-- The session's card table after `continue_generation` persists its
new cards: the existing cards followed by the new ones, whose chunk
indices are offset by `existing.length` (the count the source queries at
line 549). -/
def continue_generation_cards (existing : List Card) (session_id : ℕ)
    (deck_tag : String)
    (results : List (Except String (List CardData))) (now : ℕ) : List Card :=
  existing ++ continue_batches session_id deck_tag now existing.length 0 results

/-! ## Card review operations (card_service.py) -/

/-- Python truthiness of an `Optional[str]`: `None` and `""` are falsy.
This is the test `if not card.original_front:` performs. -/
def falsy : Option String → Bool
  | none => true
  | some s => s == ""

/-- The payload of a card edit request (schemas.py `CardEditRequest`). -/
structure CardEditRequest where
  front : String
  back : String
  tags : Option (List String)
deriving DecidableEq, Repr

/-- The payload of a card rejection request (schemas.py
`CardRejectRequest`), with the rejection type kept as its string
value. -/
structure CardRejectRequest where
  reason : String
  rejection_type : String
deriving DecidableEq, Repr

/-- The two-field structured response of the auto-correct model call;
`response.get("front", default)` is modelled with `Option.getD`. -/
structure LLMCardResponse where
  front : Option String
  back : Option String
deriving DecidableEq, Repr

/-- `approve_card` (card_service.py lines 32-42). -/
def approve_card (card : Card) (now : ℕ) : Card :=
  { card with status := CardStatus.approved, reviewed_at := some now }

/-- `reject_card` (card_service.py lines 45-63): creates a rejection
row and marks the card rejected.  `rejection_id` is the
database-assigned key of the new row. -/
def reject_card (card : Card) (request : CardRejectRequest)
    (rejection_id now : ℕ) : Card × CardRejection :=
  ({ card with status := CardStatus.rejected, reviewed_at := some now },
   { id := rejection_id
     card_id := card.id
     reason := request.reason
     rejection_type := request.rejection_type
     auto_corrected := false
     created_at := now })

/-- `edit_card` (card_service.py lines 66-85): snapshots
`original_front`/`original_back` when `original_front` is falsy, then
overwrites front/back/tags and marks the card edited. -/
def edit_card (card : Card) (request : CardEditRequest) (now : ℕ) : Card :=
  let card1 :=
    if falsy card.original_front then
      { card with original_front := some card.front
                  original_back := some card.back }
    else card
  { card1 with
    front := request.front
    back := request.back
    tags := request.tags.getD card1.tags
    status := CardStatus.edited
    reviewed_at := some now }

/-- The `order_by(CardRejection.created_at.desc()).first()` query: the
rejection with the greatest `created_at` (first such row on ties). -/
def latest_rejection : List CardRejection → Option CardRejection
  | [] => none
  | r :: rs =>
    some (rs.foldl (fun best x =>
      if best.created_at < x.created_at then x else best) r)

/-- `auto_correct_card` (card_service.py lines 88-158).  `rejections` is
the rejection table; the source filters it by `card_id`.  The LLM call
is modelled by its successful structured `response`.  With no rejection
history the source raises `ValueError` before touching any state
(`Except.error` here); on success the card returns to `pending` with the
corrected content and the triggering rejection is marked
`auto_corrected`. -/
def auto_correct_card (card : Card) (rejections : List CardRejection)
    (response : LLMCardResponse) (now : ℕ) :
    Except String (Card × List CardRejection) :=
  let own := rejections.filter (fun r => r.card_id == card.id)
  match latest_rejection own with
  | none => Except.error "Card has no rejection history"
  | some latest =>
    let card1 :=
      if falsy card.original_front then
        { card with original_front := some card.front
                    original_back := some card.back }
      else card
    let card2 :=
      { card1 with
        front := response.front.getD card.front
        back := response.back.getD card.back
        status := CardStatus.pending
        reviewed_at := some now }
    let rejections2 := rejections.map (fun r =>
      if r.id == latest.id then { r with auto_corrected := true } else r)
    Except.ok (card2, rejections2)

/-! ## Prompt evolution (prompt_evolution_service.py) -/

/-- The prompt tables the evolution service reads and writes. -/
structure PromptDB where
  versions : List PromptVersion
  suggestions : List PromptSuggestion
deriving DecidableEq, Repr

/-- `approve_suggestion` (prompt_evolution_service.py lines 227-277):
looks up the suggestion and its parent version, computes the next
version number as one past the highest existing version of the parent's
type, deactivates every version of that type, and inserts the new active
version built from the suggestion's text.  `new_id` is the
database-assigned key of the inserted row. -/
def approve_suggestion (db : PromptDB) (suggestion_id : ℕ)
    (new_id now : ℕ) : Except String (PromptDB × PromptVersion) :=
  match db.suggestions.find? (fun s => s.id == suggestion_id) with
  | none => Except.error "Suggestion not found"
  | some suggestion =>
    match db.versions.find? (fun v => v.id == suggestion.prompt_version_id) with
    | none => Except.error "Parent prompt version not found"
    | some current =>
      let same_type :=
        db.versions.filter (fun v => v.prompt_type == current.prompt_type)
      let new_version := (same_type.foldl (fun m v => max m v.version) 0) + 1
      let deactivated := db.versions.map (fun v =>
        if v.prompt_type == current.prompt_type then
          { v with is_active := false }
        else v)
      let new_prompt : PromptVersion :=
        { id := new_id
          prompt_type := current.prompt_type
          system_prompt := suggestion.suggested_system_prompt
          user_prompt_template := suggestion.suggested_user_prompt_template
          version := new_version
          is_active := true
          parent_version_id := some current.id
          created_at := now
          total_cards_generated := 0
          approved_cards := 0
          rejected_cards := 0
          approval_rate := 0 }
      let suggestions2 := db.suggestions.map (fun s =>
        if s.id == suggestion.id then
          { s with status := "approved", reviewed_at := some now }
        else s)
      Except.ok
        ({ versions := deactivated ++ [new_prompt]
           suggestions := suggestions2 }, new_prompt)

/-! ## Startup crash recovery (backend/main.py) -/

/-- `recover_stuck_sessions` (main.py lines 17-30): every session whose
status is `processing` is forced to `failed`; no other row (and no other
field) is touched. -/
def recover_stuck_sessions (sessions : List Session) : List Session :=
  sessions.map (fun s =>
    if s.status = SessionStatus.processing then
      { s with status := SessionStatus.failed }
    else s)

/-! ## Prompt metrics (prompt_service.py) -/

/-- `update_prompt_metrics` (prompt_service.py lines 64-81): add the
deltas to the matching version's counters and recompute the approval
rate when any review has been counted; when the prompt id is not found
the function does nothing. -/
def update_prompt_metrics (versions : List PromptVersion)
    (prompt_version_id : ℕ) (cards_generated : ℕ := 0) (approved : ℕ := 0)
    (rejected : ℕ := 0) : List PromptVersion :=
  versions.map (fun p =>
    if p.id = prompt_version_id then
      let approved_cards := p.approved_cards + approved
      let rejected_cards := p.rejected_cards + rejected
      let total := approved_cards + rejected_cards
      { p with
        total_cards_generated := p.total_cards_generated + cards_generated
        approved_cards := approved_cards
        rejected_cards := rejected_cards
        approval_rate :=
          if 0 < total then (approved_cards : ℚ) / (total : ℚ)
          else p.approval_rate }
    else p)

/-- The error message of a batch outcome, if it failed. -/
def batch_error : Except String (List CardData) → Option String
  | Except.error e => some e
  | Except.ok _ => none

/-! ## Concrete fixtures used by counterexamples and witnesses -/

/-- A card persisted with `chunk_index = 3` — reachable when the first
three batches of the initial generation produced no cards. -/
def exExistingCard : Card :=
  { id := 7
    session_id := 1
    front := "q0"
    back := "a0"
    tags := ["deck"]
    status := CardStatus.pending
    original_front := none
    original_back := none
    chunk_index := 3
    created_at := 0
    reviewed_at := none }

/-- A card payload returned by the model during a continuation run. -/
def exNewCardData : CardData :=
  { front := "q1", back := "a1", images := [] }

/-- A pristine generated card whose front is the empty string —
reachable because generation stores `card_data.get("front", "")`. -/
def exPristineEmptyFront : Card :=
  { id := 1
    session_id := 1
    front := ""
    back := "b"
    tags := []
    status := CardStatus.pending
    original_front := none
    original_back := none
    chunk_index := 0
    created_at := 0
    reviewed_at := none }

/-- A first edit request. -/
def exEditReq1 : CardEditRequest := { front := "X", back := "Y", tags := none }

/-- A second edit request. -/
def exEditReq2 : CardEditRequest := { front := "Z", back := "W", tags := none }

/-- A rejection row for card 1. -/
def exRejection : CardRejection :=
  { id := 4
    card_id := 1
    reason := "too vague"
    rejection_type := "unclear"
    auto_corrected := false
    created_at := 9 }

/-- A successful auto-correct model response. -/
def exCorrection : LLMCardResponse :=
  { front := some "better q", back := some "better a" }

/-- The seeded generation prompt version, active at version 1. -/
def exPromptV1 : PromptVersion :=
  { id := 1
    prompt_type := "generation"
    system_prompt := "s"
    user_prompt_template := "u"
    version := 1
    is_active := true
    parent_version_id := none
    created_at := 0
    total_cards_generated := 0
    approved_cards := 0
    rejected_cards := 0
    approval_rate := 0 }

/-- A pending suggestion against `exPromptV1`. -/
def exSuggestion : PromptSuggestion :=
  { id := 1
    prompt_version_id := 1
    session_id := 1
    suggested_system_prompt := "s2"
    suggested_user_prompt_template := "u2"
    reasoning := "r"
    status := "pending"
    reviewed_at := none
    created_at := 0 }

/-- The prompt tables before approving `exSuggestion`. -/
def exPromptDB : PromptDB :=
  { versions := [exPromptV1], suggestions := [exSuggestion] }

/-- The version `approve_suggestion exPromptDB 1 2 5` inserts. -/
def exNewPrompt : PromptVersion :=
  { id := 2
    prompt_type := "generation"
    system_prompt := "s2"
    user_prompt_template := "u2"
    version := 2
    is_active := true
    parent_version_id := some 1
    created_at := 5
    total_cards_generated := 0
    approved_cards := 0
    rejected_cards := 0
    approval_rate := 0 }

/-- The prompt tables after approving `exSuggestion`. -/
def exPromptDB2 : PromptDB :=
  { versions := [{ exPromptV1 with is_active := false }, exNewPrompt]
    suggestions := [{ exSuggestion with status := "approved"
                                        reviewed_at := some 5 }] }

end Flashcards

namespace Flashcards

/-! # Theorems -/

/-- **C2** (corrected) — counterexample: on the empty page list (with
the default batch size 10 and overlap 1) `create_page_batches` does NOT
return an empty list of batches: the guard `len(pages) <= batch_size`
fires and returns `[pages]`, i.e. a one-element list containing the
empty batch. -/
theorem batcher_empty_input_counterexample :
    create_page_batches ([] : List ℕ) 10 1 = some [[]] ∧
      create_page_batches ([] : List ℕ) 10 1 ≠ some [] := by
  constructor
  · rfl
  · decide

/-- **C2** (amended): for the empty input list and any batch size and
overlap, `create_page_batches` returns a single batch which is itself
empty (`[[]]`), not an empty list of batches. -/
theorem batcher_empty_input :
    ∀ batch_size overlap : ℕ,
      create_page_batches [] batch_size overlap = some [[]] := by
  intro batch_size overlap
  simp [create_page_batches]

/-- **C9** (confirmed): startup crash recovery maps every session whose
status is PROCESSING to the same session with status FAILED, and returns
every other session entirely unchanged (pointwise over the session
table, so every other field and every other row is untouched). -/
theorem recover_stuck_sessions_spec (sessions : List Session) :
    List.Forall₂ (fun s t =>
      (s.status = SessionStatus.processing →
        t = { s with status := SessionStatus.failed }) ∧
      (s.status ≠ SessionStatus.processing → t = s))
      sessions (recover_stuck_sessions sessions) := by
  induction sessions with
  | nil => exact List.Forall₂.nil
  | cons s rest ih =>
    refine List.Forall₂.cons ?_ ih
    by_cases h : s.status = SessionStatus.processing <;> simp [h]

/-- **C10** (confirmed): `update_prompt_metrics` leaves every version
with a different id unchanged, and on the version with the supplied id
adds the three non-negative deltas to the counters; whenever the updated
`approved + rejected` is positive the stored approval rate is exactly
`approved / (approved + rejected)`, and when it is zero the prior rate
is kept. -/
theorem update_prompt_metrics_spec (versions : List PromptVersion)
    (pid cards_generated approved rejected : ℕ) :
    List.Forall₂ (fun p q =>
      (p.id = pid →
        q.total_cards_generated = p.total_cards_generated + cards_generated ∧
        q.approved_cards = p.approved_cards + approved ∧
        q.rejected_cards = p.rejected_cards + rejected ∧
        (0 < q.approved_cards + q.rejected_cards →
          q.approval_rate = (q.approved_cards : ℚ) /
            ((q.approved_cards : ℚ) + (q.rejected_cards : ℚ))) ∧
        (q.approved_cards + q.rejected_cards = 0 →
          q.approval_rate = p.approval_rate)) ∧
      (p.id ≠ pid → q = p))
      versions (update_prompt_metrics versions pid cards_generated approved rejected) := by
  induction versions with
  | nil => exact List.Forall₂.nil
  | cons p rest ih =>
    refine List.Forall₂.cons ?_ ih
    by_cases h : p.id = pid
    · refine ⟨fun _ => ?_, fun hne => absurd h hne⟩
      beta_reduce
      rw [if_pos h]
      dsimp only
      refine ⟨rfl, rfl, rfl, fun hpos => ?_, fun hzero => ?_⟩
      · rw [if_pos hpos]
        push_cast
        ring
      · rw [if_neg (by omega)]
    · exact ⟨fun hp => absurd hp h, fun _ => by simp [h]⟩

/-- **C4** (corrected) — counterexample: `create_session` does not
create the session with status PENDING; the source sets
`status=SessionStatus.PROCESSING.value` at creation (session_service.py
line 63), so a session created through the legacy upload endpoint is
never PENDING. -/
theorem create_session_pending_counterexample :
    (create_session "doc.pdf" "/uploads/doc.pdf" "openai" "pdf" none 1 0).status
        = SessionStatus.processing ∧
      SessionStatus.processing ≠ SessionStatus.pending := by
  exact ⟨rfl, by decide⟩

/-- **C4** (amended): `create_session` creates every session with
status PROCESSING; the preview upload endpoints immediately overwrite
the status to PENDING after creation, and `start_generation` moves a
PENDING session to PROCESSING when generation starts. -/
theorem create_session_status
    (filename file_path llm_provider source_type : String)
    (gen_prompt : Option PromptVersion) (id now : ℕ) (session : Session) :
    (create_session filename file_path llm_provider source_type
        gen_prompt id now).status = SessionStatus.processing ∧
    (upload_pdf_preview_session filename file_path llm_provider
        gen_prompt id now).status = SessionStatus.pending ∧
    (session.status = SessionStatus.pending →
      start_generation_status session =
        Except.ok { session with status := SessionStatus.processing }) := by
  refine ⟨rfl, rfl, fun h => ?_⟩
  simp [start_generation_status, h]

/-- **C5** (code bug): `continue_generation` computes the offset for new
chunk indices as the session's card COUNT
(`db.query(Card).filter(...).count()`, session_service.py line 549), not
the maximum existing `chunk_index`, although its own comment says "Get
max chunk index for new cards".  With a single existing card at
`chunk_index = 3` (reachable when earlier batches produced no cards),
the continuation's first new card receives `chunk_index = 1 + 0 = 1`,
which is NOT strictly greater than the existing maximum 3 — the claimed
monotonicity fails. -/
theorem continuation_chunk_index_bug :
    (continue_generation_cards [exExistingCard] 1 "deck"
        [Except.ok [exNewCardData]] 0).map Card.chunk_index = [3, 1] ∧
    ¬ exExistingCard.chunk_index <
        ((continue_generation_cards [exExistingCard] 1 "deck"
            [Except.ok [exNewCardData]] 0).getLastD exExistingCard).chunk_index := by
  constructor
  · rfl
  · decide

/-- The error messages accumulated by the generation loop are exactly
the errors of the failed batches, in order. -/
theorem run_batches_from_errors (sid : ℕ) (tag : String) (now : ℕ) :
    ∀ (results : List (Except String (List CardData))) (idx : ℕ) (st : GenState),
      (run_batches_from sid tag now idx st results).errors
        = st.errors ++ results.filterMap batch_error := by
  intro results
  induction results with
  | nil => intro idx st; simp [run_batches_from]
  | cons r rs ih =>
    intro idx st
    cases r with
    | error e =>
      simp only [run_batches_from, process_batch, ih, batch_error,
        List.filterMap_cons]
      simp [List.append_assoc]
    | ok cs =>
      simp only [run_batches_from, process_batch, ih, batch_error,
        List.filterMap_cons]

/-- The generation loop persists no card at all precisely when it
starts from an empty card table and every successful batch returned an
empty `cards` array. -/
theorem run_batches_from_cards_nil (sid : ℕ) (tag : String) (now : ℕ) :
    ∀ (results : List (Except String (List CardData))) (idx : ℕ) (st : GenState),
      ((run_batches_from sid tag now idx st results).cards = []
        ↔ (st.cards = [] ∧ ∀ cs, Except.ok cs ∈ results → cs = [])) := by
  intro results
  induction results with
  | nil => intro idx st; simp [run_batches_from]
  | cons r rs ih =>
    intro idx st
    cases r with
    | error e =>
      simp only [run_batches_from, process_batch, ih]
      constructor
      · rintro ⟨h1, h2⟩
        refine ⟨h1, fun cs hcs => ?_⟩
        rcases List.mem_cons.mp hcs with h | h
        · exact absurd h (by simp)
        · exact h2 cs h
      · rintro ⟨h1, h2⟩
        exact ⟨h1, fun cs hcs => h2 cs (List.mem_cons_of_mem _ hcs)⟩
    | ok cs0 =>
      simp only [run_batches_from, process_batch, ih, List.append_eq_nil,
        List.map_eq_nil_iff]
      constructor
      · rintro ⟨⟨h1, h0⟩, h2⟩
        refine ⟨h1, fun cs hcs => ?_⟩
        rcases List.mem_cons.mp hcs with h | h
        · rcases Except.ok.inj h with rfl; exact h0
        · exact h2 cs h
      · rintro ⟨h1, h2⟩
        exact ⟨⟨h1, h2 cs0 (List.mem_cons_self _ _)⟩,
          fun cs hcs => h2 cs (List.mem_cons_of_mem _ hcs)⟩

/-- **C3** (confirmed): after a generation run over a fresh session has
processed all its batches, the terminal status is FAILED exactly when
every successful batch produced zero cards (so the session's total card
count is zero) and at least one batch raised an error; in every other
case the terminal status is READY. -/
theorem session_terminal_status (sid : ℕ) (tag : String) (now : ℕ)
    (results : List (Except String (List CardData))) :
    (finish_session_status (run_batches sid tag now results)
        = SessionStatus.failed
      ↔ ((∀ cs, Except.ok cs ∈ results → cs = []) ∧
          ∃ e, Except.error e ∈ results)) ∧
    (finish_session_status (run_batches sid tag now results)
        = SessionStatus.failed ∨
      finish_session_status (run_batches sid tag now results)
        = SessionStatus.ready) := by
  have hc := run_batches_from_cards_nil sid tag now results 0 ⟨[], [], 0⟩
  have he := run_batches_from_errors sid tag now results 0 ⟨[], [], 0⟩
  simp only [run_batches, finish_session_status]
  constructor
  · split_ifs with hif
    · simp only [true_iff]
      obtain ⟨hlen, herr⟩ := hif
      have hcards :
          (run_batches_from sid tag now 0 ⟨[], [], 0⟩ results).cards = [] :=
        List.length_eq_zero.mp hlen
      obtain ⟨-, hall⟩ := hc.mp hcards
      refine ⟨hall, ?_⟩
      rw [he] at herr
      simp only [List.nil_append] at herr
      have hnotall : ¬ ∀ a ∈ results, batch_error a = none :=
        fun hnone => herr (List.filterMap_eq_nil_iff.mpr hnone)
      push_neg at hnotall
      obtain ⟨a, ha, hane⟩ := hnotall
      cases a with
      | ok cs => exact absurd rfl hane
      | error e => exact ⟨e, ha⟩
    · constructor
      · intro h
        exact absurd h (by decide)
      · rintro ⟨hall, e, hmem⟩
        exfalso
        apply hif
        refine ⟨List.length_eq_zero.mpr (hc.mpr ⟨rfl, hall⟩), ?_⟩
        rw [he]
        simp only [List.nil_append]
        intro hnil
        have := List.filterMap_eq_nil_iff.mp hnil _ hmem
        simp [batch_error] at this
  · split_ifs <;> simp

/-- **C6** (corrected) — counterexample: the snapshot is NOT write-once.
A pristine card whose generated front is the empty string (reachable,
since generation stores `card_data.get("front", "")`) is edited twice:
the first edit stores `original_front = some ""`, and because the source
guards with Python truthiness (`if not card.original_front:`), the empty
snapshot is treated as absent and the second edit overwrites it with the
first edit's front `"X"`. -/
theorem card_snapshot_counterexample :
    (edit_card exPristineEmptyFront exEditReq1 0).original_front = some "" ∧
    (edit_card (edit_card exPristineEmptyFront exEditReq1 0) exEditReq2 1).original_front
        = some "X" ∧
    (edit_card (edit_card exPristineEmptyFront exEditReq1 0) exEditReq2 1).original_front
        ≠ (edit_card exPristineEmptyFront exEditReq1 0).original_front := by
  refine ⟨rfl, rfl, ?_⟩
  decide

/-- **C6** (amended): the first edit (or auto-correct) of a pristine
card copies the pre-edit front/back into `original_front`/`original_back`,
and later edits or auto-corrects leave the snapshot unchanged provided
the stored `original_front` is non-empty — when the captured
`original_front` is the empty string the truthiness guard re-captures it
on the next edit.  Front/back are updated by every edit, after any edit
or auto-correct the snapshot is non-null, and approve/reject never touch
it (so `original_front` is non-null iff the card was ever edited or
auto-corrected). -/
theorem card_snapshot (card : Card) (r : CardEditRequest)
    (rejections : List CardRejection) (resp : LLMCardResponse)
    (rreq : CardRejectRequest) (rid now : ℕ) :
    (card.original_front = none →
      (edit_card card r now).original_front = some card.front ∧
      (edit_card card r now).original_back = some card.back) ∧
    (∀ s, card.original_front = some s → s ≠ "" →
      (edit_card card r now).original_front = card.original_front ∧
      (edit_card card r now).original_back = card.original_back) ∧
    (edit_card card r now).front = r.front ∧
    (edit_card card r now).back = r.back ∧
    (edit_card card r now).original_front ≠ none ∧
    (∀ card2 rejections2,
      auto_correct_card card rejections resp now
          = Except.ok (card2, rejections2) →
      (card.original_front = none →
        card2.original_front = some card.front ∧
        card2.original_back = some card.back) ∧
      (∀ s, card.original_front = some s → s ≠ "" →
        card2.original_front = card.original_front ∧
        card2.original_back = card.original_back) ∧
      card2.original_front ≠ none) ∧
    (approve_card card now).original_front = card.original_front ∧
    (reject_card card rreq rid now).1.original_front = card.original_front := by
  refine ⟨?_, ?_, rfl, rfl, ?_, ?_, rfl, rfl⟩
  · intro h
    simp [edit_card, falsy, h]
  · intro s hs hne
    have hf : falsy card.original_front = false := by
      simp [falsy, hs, hne]
    simp [edit_card, hf]
  · cases hc : card.original_front with
    | none => simp [edit_card, falsy, hc]
    | some s =>
      by_cases hse : s = "" <;> simp [edit_card, falsy, hc, hse]
  · intro card2 rejections2 h
    simp only [auto_correct_card] at h
    split at h
    · exact absurd h (by simp)
    · injection h with hp
      have h1 : card2 = _ := (congrArg Prod.fst hp).symm
      refine ?_
      rw [h1]
      refine ⟨?_, ?_, ?_⟩
      · intro hno
        simp [falsy, hno]
      · intro s hs hne
        have hf : falsy card.original_front = false := by
          simp [falsy, hs, hne]
        simp [hf]
      · cases hc : card.original_front with
        | none => simp [falsy, hc]
        | some s =>
          by_cases hse : s = "" <;> simp [falsy, hc, hse]

/-- `latest_rejection` always returns an element of its input list. -/
theorem latest_rejection_mem : ∀ (l : List CardRejection) (r : CardRejection),
    latest_rejection l = some r → r ∈ l := by
  have hfold : ∀ (rs : List CardRejection) (a : CardRejection),
      rs.foldl (fun best x => if best.created_at < x.created_at then x else best) a = a
        ∨ rs.foldl (fun best x => if best.created_at < x.created_at then x else best) a ∈ rs := by
    intro rs
    induction rs with
    | nil => intro a; left; rfl
    | cons x xs ih =>
      intro a
      simp only [List.foldl_cons]
      rcases ih (if a.created_at < x.created_at then x else a) with h | h
      · rw [h]
        by_cases hc : a.created_at < x.created_at
        · right
          rw [if_pos hc]
          exact List.mem_cons_self _ _
        · left
          rw [if_neg hc]
      · right
        exact List.mem_cons_of_mem _ h
  intro l r hl
  cases l with
  | nil => simp [latest_rejection] at hl
  | cons a as =>
    simp only [latest_rejection, Option.some.injEq] at hl
    rcases hfold as a with h | h
    · rw [h] at hl
      rw [← hl]
      exact List.mem_cons_self _ _
    · rw [← hl]
      exact List.mem_cons_of_mem _ h

/-- **C7** (confirmed): auto-correct on a card with no rejection rows
fails with the "no rejection history" error — the source raises before
mutating anything, so no state change is produced.  When a latest
rejection exists and the model call succeeds, the corrected card's
status is `pending` (never `approved`), and the triggering (latest)
rejection is marked `auto_corrected = true` in the rejection table. -/
theorem auto_correct_contract (card : Card) (rejections : List CardRejection)
    (resp : LLMCardResponse) (now : ℕ) :
    (rejections.filter (fun r2 => r2.card_id == card.id) = [] →
      auto_correct_card card rejections resp now
        = Except.error "Card has no rejection history") ∧
    (∀ card2 rejections2,
      auto_correct_card card rejections resp now
          = Except.ok (card2, rejections2) →
      card2.status = CardStatus.pending ∧
      card2.status ≠ CardStatus.approved ∧
      ∃ latest,
        latest_rejection (rejections.filter (fun r2 => r2.card_id == card.id))
            = some latest ∧
        latest ∈ rejections ∧
        (∀ r2 ∈ rejections2, r2.id = latest.id → r2.auto_corrected = true) ∧
        ∃ r2 ∈ rejections2, r2.id = latest.id ∧ r2.auto_corrected = true) := by
  constructor
  · intro h
    simp [auto_correct_card, h, latest_rejection]
  · intro card2 rejections2 h
    simp only [auto_correct_card] at h
    split at h
    · exact absurd h (by simp)
    case _ latest heq =>
      injection h with hp
      injection hp with h1 h2
      subst h1
      subst h2
      have hmem : latest ∈ rejections :=
        List.mem_of_mem_filter (latest_rejection_mem _ _ heq)
      refine ⟨rfl, by dsimp only; decide, latest, heq, hmem, ?_, ?_⟩
      · intro r2 hr2 hid
        obtain ⟨r0, hr0, hr0eq⟩ := List.mem_map.mp hr2
        by_cases hcid : r0.id == latest.id
        · rw [← hr0eq]
          simp [hcid]
        · rw [← hr0eq] at hid
          simp [hcid] at hid
          exact absurd (by simpa using hid) (by simpa using hcid)
      · refine ⟨{ latest with auto_corrected := true }, ?_, rfl, rfl⟩
        have := List.mem_map_of_mem (fun r2 =>
          if r2.id == latest.id then { r2 with auto_corrected := true } else r2) hmem
        simpa using this

/-- Every element of a prompt-version list has its version bounded by
the running maximum `approve_suggestion` computes, and the initial value
is a lower bound of that maximum. -/
theorem version_le_foldl_max : ∀ (l : List PromptVersion) (init : ℕ),
    (∀ v ∈ l, v.version ≤ l.foldl (fun m v => max m v.version) init) ∧
    init ≤ l.foldl (fun m v => max m v.version) init := by
  intro l
  induction l with
  | nil => intro init; exact ⟨by simp, le_refl _⟩
  | cons x xs ih =>
    intro init
    simp only [List.foldl_cons]
    obtain ⟨h1, h2⟩ := ih (max init x.version)
    constructor
    · intro v hv
      rcases List.mem_cons.mp hv with rfl | hv

      · exact le_trans (le_max_right _ _) h2
      · exact h1 v hv
    · exact le_trans (le_max_left _ _) h2

/-- The running maximum `approve_suggestion` computes is either the
initial value or attained by some element of the list. -/
theorem foldl_max_attained : ∀ (l : List PromptVersion) (init : ℕ),
    l.foldl (fun m v => max m v.version) init = init ∨
    ∃ v ∈ l, l.foldl (fun m v => max m v.version) init = v.version := by
  intro l
  induction l with
  | nil => intro init; left; rfl
  | cons x xs ih =>
    intro init
    simp only [List.foldl_cons]
    rcases ih (max init x.version) with h | ⟨v, hv, hveq⟩
    · rw [h]
      by_cases hc : x.version ≤ init
      · left
        rw [max_eq_left hc]
      · right
        exact ⟨x, List.mem_cons_self _ _, by rw [max_eq_right (le_of_not_le hc)]⟩
    · right
      exact ⟨v, List.mem_cons_of_mem _ hv, hveq⟩

/-- **C8** (confirmed): when approving a suggestion succeeds, the newly
created version is active, it is the ONLY active version of its prompt
type in the resulting table (every previously active version of that
type has been deactivated), and its version number is exactly one more
than the greatest existing version number of that type. -/
theorem approve_suggestion_exclusivity (db : PromptDB) (sid new_id now : ℕ)
    (db2 : PromptDB) (new_prompt : PromptVersion)
    (h : approve_suggestion db sid new_id now = Except.ok (db2, new_prompt)) :
    new_prompt.is_active = true ∧
    db2.versions.filter
        (fun v => v.prompt_type == new_prompt.prompt_type && v.is_active)
      = [new_prompt] ∧
    (∀ v ∈ db.versions, v.prompt_type = new_prompt.prompt_type →
      v.version < new_prompt.version) ∧
    (∃ v ∈ db.versions, v.prompt_type = new_prompt.prompt_type ∧
      v.version + 1 = new_prompt.version) := by
  simp only [approve_suggestion] at h
  split at h
  · exact absurd h (by simp)
  case _ suggestion hsugg =>
    split at h
    · exact absurd h (by simp)
    case _ current hcur =>
      injection h with hp
      injection hp with h1 h2
      subst h1
      subst h2
      dsimp only
      have hcurmem : current ∈ db.versions := List.mem_of_find?_eq_some hcur
      have hcurst :
          current ∈ db.versions.filter
            (fun v => v.prompt_type == current.prompt_type) :=
        List.mem_filter.mpr ⟨hcurmem, by simp⟩
      refine ⟨rfl, ?_, ?_, ?_⟩
      · rw [List.filter_append]
        have hd : (db.versions.map (fun v =>
            if v.prompt_type == current.prompt_type then
              { v with is_active := false } else v)).filter
            (fun v => v.prompt_type == current.prompt_type && v.is_active)
              = [] := by
          rw [List.filter_eq_nil_iff]
          intro a ha
          obtain ⟨v, hv, hveq⟩ := List.mem_map.mp ha
          by_cases hvt : v.prompt_type == current.prompt_type
          · rw [if_pos hvt] at hveq
            rw [← hveq]
            simp
          · rw [if_neg hvt] at hveq
            rw [← hveq]
            simp only [Bool.and_eq_true]
            rintro ⟨hvt2, -⟩
            exact hvt hvt2
        rw [hd]
        simp
      · intro v hv hvt
        have hvst : v ∈ db.versions.filter
            (fun v => v.prompt_type == current.prompt_type) :=
          List.mem_filter.mpr ⟨hv, by simp [hvt]⟩
        have := (version_le_foldl_max
          (db.versions.filter (fun v => v.prompt_type == current.prompt_type))
          0).1 v hvst
        omega
      · rcases foldl_max_attained
            (db.versions.filter (fun v => v.prompt_type == current.prompt_type))
            0 with h0 | ⟨v, hv, hveq⟩
        · have hle := (version_le_foldl_max
            (db.versions.filter (fun v => v.prompt_type == current.prompt_type))
            0).1 current hcurst
          rw [h0] at hle
          refine ⟨current, hcurmem, rfl, ?_⟩
          rw [h0]
          omega
        · have hvt : v.prompt_type = current.prompt_type := by
            have := (List.mem_filter.mp hv).2
            simpa using this
          exact ⟨v, List.mem_of_mem_filter hv, hvt, by rw [hveq]⟩

/-- Witness for `approve_suggestion_exclusivity`: approving the seeded
suggestion `exSuggestion` over `exPromptDB` yields `exPromptDB2` and the
new active version `exNewPrompt` at version 2. -/
theorem approve_suggestion_exclusivity_witness :
    exNewPrompt.is_active = true ∧
    exPromptDB2.versions.filter
        (fun v => v.prompt_type == exNewPrompt.prompt_type && v.is_active)
      = [exNewPrompt] ∧
    (∀ v ∈ exPromptDB.versions, v.prompt_type = exNewPrompt.prompt_type →
      v.version < exNewPrompt.version) ∧
    (∃ v ∈ exPromptDB.versions, v.prompt_type = exNewPrompt.prompt_type ∧
      v.version + 1 = exNewPrompt.version) :=
  approve_suggestion_exclusivity exPromptDB 1 2 5 exPromptDB2 exNewPrompt rfl

/-! ## The batcher contract -/

/-- Every slice produced by `chop` has at most `batch_size` elements. -/
theorem chop_batch_size (pages : List ℕ) (batch_size stride : ℕ) :
    ∀ i, ∀ b ∈ chop pages batch_size stride i, b.length ≤ batch_size := by
  intro i
  induction i using chop.induct pages batch_size stride with
  | case1 i h =>
    intro b hb
    rw [chop, if_pos h] at hb
    simp only [List.mem_singleton] at hb
    subst hb
    simp [List.length_take]
  | case2 i h ih =>
    intro b hb
    rw [chop, if_neg h] at hb
    rcases List.mem_cons.mp hb with h1 | h1
    · subst h1
      simp [List.length_take]
    · exact ih b h1

/-- With a positive stride no larger than the batch size, the slices of
`chop` cover exactly the elements of `pages.drop i`. -/
theorem chop_join_mem (pages : List ℕ) (batch_size stride : ℕ)
    (hs : 0 < stride) (hsB : stride ≤ batch_size) :
    ∀ i x, x ∈ (chop pages batch_size stride i).join ↔ x ∈ pages.drop i := by
  intro i
  induction i using chop.induct pages batch_size stride with
  | case1 i h =>
    intro x
    rw [chop, if_pos h]
    have hlen : (pages.drop i).length ≤ batch_size := by
      rcases h with h | h
      · omega
      · rw [List.length_drop]
        omega
    simp [List.take_of_length_le hlen]
  | case2 i h ih =>
    intro x
    rw [chop, if_neg h]
    simp only [List.join_cons, List.mem_append]
    rw [ih]
    constructor
    · rintro (hx | hx)
      · exact List.take_subset _ _ hx
      · rw [← List.drop_drop] at hx
        exact List.drop_subset _ _ hx
    · intro hx
      rw [← List.take_append_drop stride (pages.drop i)] at hx
      rcases List.mem_append.mp hx with hx | hx
      · left
        have : (pages.drop i).take stride
            = ((pages.drop i).take batch_size).take stride := by
          rw [List.take_take, min_eq_left hsB]
        rw [this] at hx
        exact List.take_subset _ _ hx
      · right
        rw [List.drop_drop] at hx
        exact hx

/-- `chop` always produces at least one slice, and its first slice is
the one starting at `i`. -/
theorem chop_head (pages : List ℕ) (batch_size stride i : ℕ) :
    ∃ t, chop pages batch_size stride i
        = ((pages.drop i).take batch_size) :: t := by
  rw [chop]
  split
  · exact ⟨[], rfl⟩
  · exact ⟨_, rfl⟩

/-- The overlap computation: on a duplicate-free page list, two
consecutive full-stride slices share exactly `batch_size - stride`
elements. -/
theorem overlap_card (pages : List ℕ) (batch_size stride i : ℕ)
    (hs : 0 < stride) (hsB : stride ≤ batch_size) (hnd : pages.Nodup)
    (hiB : i + batch_size < pages.length) :
    ((((pages.drop i).take batch_size).toFinset ∩
        ((pages.drop (i + stride)).take batch_size).toFinset)).card
      = batch_size - stride := by
  obtain ⟨o, rfl⟩ : ∃ o, batch_size = stride + o :=
    ⟨batch_size - stride, by omega⟩
  have hLnd : (pages.drop i).Nodup := hnd.sublist (List.drop_sublist _ _)
  have hLlen : stride + o < pages.length - i := by
    omega
  have hdropL : pages.drop (i + stride) = (pages.drop i).drop stride := by
    rw [List.drop_drop]
  have hb1 : (pages.drop i).take (stride + o)
      = (pages.drop i).take stride ++ ((pages.drop i).drop stride).take o :=
    List.take_add _ _ _
  have hb2 : ((pages.drop i).drop stride).take (stride + o)
      = ((pages.drop i).drop stride).take o
        ++ (((pages.drop i).drop stride).drop o).take stride := by
    conv_lhs => rw [Nat.add_comm stride o]
    exact List.take_add _ _ _
  have hdisj : List.Disjoint ((pages.drop i).take stride)
      ((pages.drop i).drop stride) :=
    List.disjoint_take_drop hLnd (le_refl stride)
  have hvsub : ((pages.drop i).drop stride).take o ⊆ (pages.drop i).drop stride :=
    List.take_subset _ _
  have hwsub : (((pages.drop i).drop stride).drop o).take stride
      ⊆ (pages.drop i).drop stride := by
    intro a ha
    exact List.drop_subset _ _ (List.take_subset _ _ ha)
  have hvnd : (((pages.drop i).drop stride).take o).Nodup := by
    have hsub : List.Sublist (((pages.drop i).drop stride).take o)
        (pages.drop i) :=
      List.Sublist.trans (List.take_sublist _ _) (List.drop_sublist _ _)
    exact hLnd.sublist hsub
  have hvlen : (((pages.drop i).drop stride).take o).length = o := by
    simp only [List.length_take, List.length_drop]
    omega
  rw [hdropL, hb1, hb2]
  have hinter :
      (((pages.drop i).take stride ++ ((pages.drop i).drop stride).take o).toFinset
        ∩ (((pages.drop i).drop stride).take o
            ++ (((pages.drop i).drop stride).drop o).take stride).toFinset)
      = (((pages.drop i).drop stride).take o).toFinset := by
    ext a
    simp only [List.toFinset_append, Finset.mem_inter, Finset.mem_union,
      List.mem_toFinset]
    constructor
    · rintro ⟨ha1 | ha1, ha2 | ha2⟩
      · exact absurd (hvsub ha2) (hdisj ha1)
      · exact absurd (hwsub ha2) (hdisj ha1)
      · exact ha1
      · exact ha1
    · intro ha
      exact ⟨Or.inr ha, Or.inl ha⟩
  rw [hinter, List.toFinset_card_of_nodup hvnd, hvlen]
  omega

/-- On a duplicate-free page list, consecutive slices of `chop` share
exactly `batch_size - stride` elements. -/
theorem chop_chain (pages : List ℕ) (batch_size stride : ℕ)
    (hs : 0 < stride) (hsB : stride ≤ batch_size) (hnd : pages.Nodup) :
    ∀ i, List.Chain'
      (fun b c => (b.toFinset ∩ c.toFinset).card = batch_size - stride)
      (chop pages batch_size stride i) := by
  intro i
  induction i using chop.induct pages batch_size stride with
  | case1 i h =>
    rw [chop, if_pos h]
    exact List.chain'_singleton _
  | case2 i h ih =>
    rw [chop, if_neg h]
    rw [List.chain'_cons']
    refine ⟨?_, ih⟩
    intro y hy
    obtain ⟨t, ht⟩ := chop_head pages batch_size stride (i + stride)
    rw [ht] at hy
    simp only [List.head?_cons, Option.mem_def, Option.some.injEq] at hy
    subst hy
    have hiB : i + batch_size < pages.length := by
      rcases not_or.mp h with ⟨h1, h2⟩
      omega
    exact overlap_card pages batch_size stride i hs hsB hnd hiB

/-- Under the contract hypotheses the loop of `create_page_batches` is
exactly `chop`: the batch is never empty and the merge-tiny-final-batch
branch never fires, because the loop breaks at the first slice reaching
the end of the input. -/
theorem batchLoop_eq_chop (pages : List ℕ) (batch_size overlap : ℕ)
    (hOB : overlap < batch_size) :
    ∀ (i : ℕ) (acc : List (List ℕ)), overlap + i < pages.length →
      batchLoop pages batch_size overlap (batch_size - overlap) i acc
        = acc ++ chop pages batch_size (batch_size - overlap) i := by
  have main : ∀ (m i : ℕ) (acc : List (List ℕ)), pages.length - i ≤ m →
      overlap + i < pages.length →
      batchLoop pages batch_size overlap (batch_size - overlap) i acc
        = acc ++ chop pages batch_size (batch_size - overlap) i := by
    intro m
    induction m with
    | zero =>
      intro i acc hm hpre
      exfalso
      omega
    | succ m ih =>
      intro i acc hm hpre
      rw [batchLoop]
      rw [dif_neg (by omega :
        ¬(batch_size - overlap = 0 ∨ pages.length ≤ i))]
      dsimp only
      have hbne : ((pages.drop i).take batch_size).isEmpty = false := by
        rw [List.isEmpty_eq_false]
        apply List.ne_nil_of_length_pos
        rw [List.length_take, List.length_drop]
        omega
      have hlenO : overlap < ((pages.drop i).take batch_size).length := by
        rw [List.length_take, List.length_drop]
        omega
      rw [hbne]
      simp only [Bool.false_eq_true, if_false]
      have hmerge :
          ¬(((pages.drop i).take batch_size).length ≤ overlap ∧ acc ≠ []) :=
        fun hcon => (Nat.not_le.mpr hlenO) hcon.1
      rw [if_neg hmerge]
      by_cases hbreak : pages.length ≤ i + batch_size
      · rw [if_pos hbreak, chop, if_pos (Or.inr hbreak)]
      · rw [if_neg hbreak]
        rw [ih (i + (batch_size - overlap)) _ (by omega) (by omega)]
        conv_rhs => rw [chop]
        rw [if_neg (by omega :
          ¬(batch_size - overlap = 0 ∨ pages.length ≤ i + batch_size))]
        simp
  intro i acc hpre
  exact main (pages.length - i) i acc (le_refl _) hpre

/-- **C1** (confirmed): on a non-empty duplicate-free ordered page list
with batch size `B > 0` and overlap `O < B`, `create_page_batches`
returns a list of batches whose union is exactly the input set, in
which every pair of consecutive batches shares exactly `O` elements
(under these hypotheses the merge branch never fires, so even the final
pair shares exactly `O`), no batch exceeds `B` elements, and an input of
length at most `B` yields the single batch `[pages]`. -/
theorem batcher_contract (pages : List ℕ) (batch_size overlap : ℕ)
    (hne : pages ≠ []) (hnd : pages.Nodup) (hB : 0 < batch_size)
    (hOB : overlap < batch_size) :
    ∃ bs, create_page_batches pages batch_size overlap = some bs ∧
      (∀ x, x ∈ bs.join ↔ x ∈ pages) ∧
      List.Chain' (fun b c => (b.toFinset ∩ c.toFinset).card = overlap) bs ∧
      (∀ b ∈ bs, b.length ≤ batch_size) ∧
      (pages.length ≤ batch_size → bs = [pages]) := by
  by_cases hNB : pages.length ≤ batch_size
  · refine ⟨[pages], ?_, ?_, ?_, ?_, fun _ => rfl⟩
    · rw [create_page_batches, if_pos hNB]
    · intro x
      simp
    · exact List.chain'_singleton _
    · intro b hb
      simp only [List.mem_singleton] at hb
      subst hb
      exact hNB
  · have hs : 0 < batch_size - overlap := by omega
    have hsB : batch_size - overlap ≤ batch_size := by omega
    refine ⟨chop pages batch_size (batch_size - overlap) 0, ?_, ?_, ?_, ?_,
      fun hcon => absurd hcon hNB⟩
    · rw [create_page_batches, if_neg hNB, if_neg (by omega), if_neg (by omega)]
      rw [batchLoop_eq_chop pages batch_size overlap hOB 0 [] (by omega)]
      rw [List.nil_append]
    · intro x
      rw [chop_join_mem pages batch_size (batch_size - overlap) hs hsB 0 x]
      rw [List.drop_zero]
    · have := chop_chain pages batch_size (batch_size - overlap) hs hsB hnd 0
      have hOeq : batch_size - (batch_size - overlap) = overlap := by omega
      rw [hOeq] at this
      exact this
    · exact chop_batch_size pages batch_size (batch_size - overlap) 0

/-- Witness for `batcher_contract`: the five-page input `[0..4]` with
batch size 3 and overlap 1 (the batches are `[[0,1,2],[2,3,4]]`). -/
theorem batcher_contract_witness :
    ∃ bs, create_page_batches [0, 1, 2, 3, 4] 3 1 = some bs ∧
      (∀ x, x ∈ bs.join ↔ x ∈ ([0, 1, 2, 3, 4] : List ℕ)) ∧
      List.Chain' (fun b c => (b.toFinset ∩ c.toFinset).card = 1) bs ∧
      (∀ b ∈ bs, b.length ≤ 3) ∧
      (([0, 1, 2, 3, 4] : List ℕ).length ≤ 3 → bs = [[0, 1, 2, 3, 4]]) :=
  batcher_contract [0, 1, 2, 3, 4] 3 1 (by decide) (by decide) (by decide)
    (by decide)

end Flashcards
